import Mathlib

/-!
Verification of the define-use (def-use) tracking layer of the MoarVM
bytecode specializer (`src/moarvm.c`, the `MVM_spesh_usages_*` family).

The C code is shallowly embedded: an `MVMSpeshIns` pointer becomes a value
of the structure `MVMSpeshIns` (the `insId` field models pointer identity,
so distinct allocations get distinct ids); the intrusive singly linked
usage chain `MVMSpeshUseChainEntry* users` becomes a `List MVMSpeshIns`
whose head is the most recently prepended entry; the `MVMuint8` flags
become `Bool`; in-place mutation of an `MVMSpeshFacts*` becomes a function
returning the updated record; the fatal `MVM_oops` path becomes the
`Except.error` constructor carrying the diagnostic.
-/

/-- Identity of an SSA value: the register `orig` number and SSA version
`i`, mirroring `MVMSpeshOperand.reg.orig` / `.reg.i`. -/
structure MVMSpeshOperand where
  orig : Nat
  i : Nat
deriving DecidableEq, Repr

/-- Opcode descriptor (`MVMOpInfo`): the op name, the opcode number and
one operand-flag word per operand slot (`num_operands` is the length of
`operands`). -/
structure MVMOpInfo where
  name : String
  opcode : Nat
  operands : List Nat
deriving DecidableEq, Repr

/-- An instruction (`MVMSpeshIns`). `insId` models the pointer identity of
the C heap object: two instructions are the same instruction exactly when
the whole structure (in particular `insId`) coincides. -/
structure MVMSpeshIns where
  insId : Nat
  info : MVMOpInfo
  operands : List MVMSpeshOperand
deriving DecidableEq, Repr

/-- Usage bookkeeping of one SSA value (`facts->usage`): the chain of
users (head = most recently added entry) and the deopt/handler flags,
which the C stores as integers set to 1. -/
structure MVMSpeshUsages where
  users : List MVMSpeshIns
  deopt_required : Bool
  handler_required : Bool
deriving DecidableEq, Repr

/-- Facts entry of one SSA value (`MVMSpeshFacts`), restricted to the
fields this subsystem touches: the usage bookkeeping and the defining
instruction `writer` (a nullable pointer, hence `Option`). -/
structure MVMSpeshFacts where
  usage : MVMSpeshUsages
  writer : Option MVMSpeshIns
deriving DecidableEq, Repr

/-- Basic block (`MVMSpeshBB`): its `idx` and its instruction stream
(the `first_ins`/`next` chain). -/
structure MVMSpeshBB where
  idx : Nat
  ins : List MVMSpeshIns

/-- Specialization graph (`MVMSpeshGraph`): the basic blocks in linear
order (the `entry`/`linear_next` chain) and the facts table
(`g->facts[orig][i]`, modelled as a total lookup function). -/
structure MVMSpeshGraph where
  bbs : List MVMSpeshBB
  facts : MVMSpeshOperand → MVMSpeshFacts

/-- Modelled from the spec: operands are "resolved internally to Facts";
`MVM_spesh_get_facts` itself lives in graph code outside this repository
slice and is the lookup `&g->facts[o.reg.orig][o.reg.i]`. -/
def MVM_spesh_get_facts (g : MVMSpeshGraph) (o : MVMSpeshOperand) : MVMSpeshFacts :=
  g.facts o

/-- Helper used to state theorems: replace the usage chain of a facts
entry, leaving the flags and the writer alone. -/
def setUsers (facts : MVMSpeshFacts) (l : List MVMSpeshIns) : MVMSpeshFacts :=
  { facts with usage := { facts.usage with users := l } }

/-- `MVM_spesh_usages_add`: allocate a chain entry for `user` and prepend
it to `facts->usage.users`. The C parameter is called `by`, a Lean
keyword, so it is `user` here (as in the entry field it is stored into). -/
def MVM_spesh_usages_add (facts : MVMSpeshFacts) (user : MVMSpeshIns) : MVMSpeshFacts :=
  { facts with usage := { facts.usage with users := user :: facts.usage.users } }

/-- The walk of `MVM_spesh_usages_delete`'s `while` loop over the chain:
returns the chain as it stands when the function ends, paired with `true`
exactly when the loop fell off the end and `MVM_oops` fires. On a match
the entry is unlinked (`prev->next = cur->next` / head update) and the
walk stops. -/
def deleteLoop (user : MVMSpeshIns) : List MVMSpeshIns → List MVMSpeshIns × Bool
  | [] => ([], true)
  | cur :: rest =>
    if cur = user then (rest, false)
    else
      let r := deleteLoop user rest
      (cur :: r.1, r.2)

/-- Diagnostic string of the `MVM_oops` call in `MVM_spesh_usages_delete`:
the format `"Spesh: instruction %s missing from define-use chain"` applied
to `by->info->name`. -/
def deleteOopsMsg (user : MVMSpeshIns) : String :=
  "Spesh: instruction " ++ user.info.name ++ " missing from define-use chain"

/-- `MVM_spesh_usages_delete`: unlink the first chain entry whose `user`
equals the given instruction; if none matches, `MVM_oops` aborts the
attempt, modelled as `Except.error` with the diagnostic string. -/
def MVM_spesh_usages_delete (facts : MVMSpeshFacts) (user : MVMSpeshIns) :
    Except String MVMSpeshFacts :=
  let r := deleteLoop user facts.usage.users
  if r.2 then Except.error (deleteOopsMsg user)
  else Except.ok (setUsers facts r.1)

/-- Facts state at the moment `MVM_oops` fires inside
`MVM_spesh_usages_delete`: the chain as left by the loop walk, flags and
writer untouched. -/
def deleteAbortState (facts : MVMSpeshFacts) (user : MVMSpeshIns) : MVMSpeshFacts :=
  setUsers facts (deleteLoop user facts.usage.users).1

/-- `MVM_spesh_usages_add_for_deopt`: set `facts->usage.deopt_required = 1`. -/
def MVM_spesh_usages_add_for_deopt (facts : MVMSpeshFacts) : MVMSpeshFacts :=
  { facts with usage := { facts.usage with deopt_required := true } }

/-- `MVM_spesh_usages_add_for_handler`: set `facts->usage.handler_required = 1`. -/
def MVM_spesh_usages_add_for_handler (facts : MVMSpeshFacts) : MVMSpeshFacts :=
  { facts with usage := { facts.usage with handler_required := true } }

/-- `MVM_spesh_usages_is_used` (after its `MVM_spesh_get_facts` lookup):
`deopt_required || handler_required || users`, where the chain pointer is
truthy exactly when the chain is non-empty. -/
def MVM_spesh_usages_is_used (facts : MVMSpeshFacts) : Bool :=
  facts.usage.deopt_required || facts.usage.handler_required || !facts.usage.users.isEmpty

/-- `MVM_spesh_usages_is_used_by_deopt` (after its facts lookup). -/
def MVM_spesh_usages_is_used_by_deopt (facts : MVMSpeshFacts) : Bool :=
  facts.usage.deopt_required

/-- `MVM_spesh_usages_is_used_by_handler` (after its facts lookup). -/
def MVM_spesh_usages_is_used_by_handler (facts : MVMSpeshFacts) : Bool :=
  facts.usage.handler_required

/-- `MVM_spesh_usages_used_once` (after its facts lookup):
`!deopt_required && !handler_required && users && !users->next`; on the
list model `users` truthy is non-emptiness and `users->next` null is the
tail being empty. -/
def MVM_spesh_usages_used_once (facts : MVMSpeshFacts) : Bool :=
  !facts.usage.deopt_required && !facts.usage.handler_required &&
    !facts.usage.users.isEmpty && facts.usage.users.tail.isEmpty

/-- The counting `while` loop of `MVM_spesh_usages_count`. -/
def countLoop : List MVMSpeshIns → Nat
  | [] => 0
  | _ :: rest => countLoop rest + 1

/-- `MVM_spesh_usages_count` (after its facts lookup): walk the chain,
incrementing a counter per entry; the flags never enter the count. -/
def MVM_spesh_usages_count (facts : MVMSpeshFacts) : Nat :=
  countLoop facts.usage.users

/-- Iterated calls of `MVM_spesh_usages_delete` on the same facts entry
and instruction, stopping at the first `MVM_oops`; used to state the
caller-discipline consequence of one-entry-per-call removal. -/
def deleteTimes (facts : MVMSpeshFacts) (user : MVMSpeshIns) : Nat → Except String MVMSpeshFacts
  | 0 => Except.ok facts
  | n + 1 =>
    match MVM_spesh_usages_delete facts user with
    | Except.ok f' => deleteTimes f' user n
    | Except.error e => Except.error e

/-- Opcode number of `MVM_SSA_PHI`. The numeric value lives in the ops
tables outside this repository slice; the checker only compares opcodes
against it for equality, so any fixed number models it faithfully. -/
def MVM_SSA_PHI : Nat := 1

/-- Operand flag mask from the bytecode headers (outside this slice): the
low bits of an operand flag word hold its read/write classification. -/
def MVM_operand_rw_mask : Nat := 7

/-- Flag value classifying an operand slot as a register read. -/
def MVM_operand_read_reg : Nat := 1

/-- Flag value classifying an operand slot as a register write. -/
def MVM_operand_write_reg : Nat := 2

/-- Read classification of operand slot `i` as tested by
`MVM_spesh_usages_check`: `(is_phi && i > 0) || (!is_phi &&
(operands[i] & MVM_operand_rw_mask) == MVM_operand_read_reg)`. -/
def isReadSlot (isphi : Bool) (i flag : Nat) : Bool :=
  (isphi && decide (0 < i)) ||
    (!isphi && ((flag &&& MVM_operand_rw_mask) == MVM_operand_read_reg))

/-- Write classification of operand slot `i` as tested by
`MVM_spesh_usages_check`: `(is_phi && i == 0) || (!is_phi &&
(operands[i] & MVM_operand_rw_mask) == MVM_operand_write_reg)`. -/
def isWriteSlot (isphi : Bool) (i flag : Nat) : Bool :=
  (isphi && (i == 0)) ||
    (!isphi && ((flag &&& MVM_operand_rw_mask) == MVM_operand_write_reg))

/-- Diagnostic of an `MVM_oops` raised by `MVM_spesh_usages_check`,
carrying exactly the data interpolated into its format strings: the op
name (or `"PHI"`), the operand's `orig` and `i`, and the block index.
(The C also appends `MVM_spesh_dump(tc, g)`, a rendering function outside
this slice.) -/
inductive DUCheckError where
  | readerMissing (opName : String) (orig regI bbIdx : Nat)
  | writerIncorrect (opName : String) (orig regI bbIdx : Nat)
deriving DecidableEq, Repr

def DUCheckError.opName : DUCheckError → String
  | readerMissing n _ _ _ => n
  | writerIncorrect n _ _ _ => n

def DUCheckError.orig : DUCheckError → Nat
  | readerMissing _ o _ _ => o
  | writerIncorrect _ o _ _ => o

def DUCheckError.regI : DUCheckError → Nat
  | readerMissing _ _ r _ => r
  | writerIncorrect _ _ r _ => r

def DUCheckError.bbIdx : DUCheckError → Nat
  | readerMissing _ _ _ b => b
  | writerIncorrect _ _ _ b => b

/-- Body of the per-slot branch of `MVM_spesh_usages_check`: for a
read-classified slot, search the chain for an entry whose `user` is the
current instruction; for a write-classified slot, compare `facts->writer`
with the current instruction; otherwise do nothing. -/
def checkOperand (facts : MVMSpeshOperand → MVMSpeshFacts) (bbIdx : Nat)
    (ins : MVMSpeshIns) (isphi : Bool) (i flag : Nat) (o : MVMSpeshOperand) :
    Except DUCheckError Unit :=
  if isReadSlot isphi i flag then
    if ins ∈ (facts o).usage.users then Except.ok ()
    else Except.error (DUCheckError.readerMissing
      (if isphi then "PHI" else ins.info.name) o.orig o.i bbIdx)
  else if isWriteSlot isphi i flag then
    if (facts o).writer = some ins then Except.ok ()
    else Except.error (DUCheckError.writerIncorrect
      (if isphi then "PHI" else ins.info.name) o.orig o.i bbIdx)
  else Except.ok ()

/-- The `for (i = 0; i < num_operands; i++)` loop of the checker, walking
the flag words and the operand array in lockstep from slot `i`. -/
def checkOperandsFrom (facts : MVMSpeshOperand → MVMSpeshFacts) (bbIdx : Nat)
    (ins : MVMSpeshIns) (isphi : Bool) :
    Nat → List Nat → List MVMSpeshOperand → Except DUCheckError Unit
  | _, [], _ => Except.ok ()
  | _, _ :: _, [] => Except.ok ()
  | i, flag :: fs, o :: os =>
    match checkOperand facts bbIdx ins isphi i flag o with
    | Except.ok _ => checkOperandsFrom facts bbIdx ins isphi (i + 1) fs os
    | Except.error e => Except.error e

/-- Per-instruction slice of the checker: classify PHIs by opcode, then
walk the slots. -/
def checkIns (facts : MVMSpeshOperand → MVMSpeshFacts) (bbIdx : Nat)
    (ins : MVMSpeshIns) : Except DUCheckError Unit :=
  checkOperandsFrom facts bbIdx ins (ins.info.opcode == MVM_SSA_PHI) 0
    ins.info.operands ins.operands

/-- The `while (cur_ins)` loop of the checker. -/
def checkInsList (facts : MVMSpeshOperand → MVMSpeshFacts) (bbIdx : Nat) :
    List MVMSpeshIns → Except DUCheckError Unit
  | [] => Except.ok ()
  | ins :: rest =>
    match checkIns facts bbIdx ins with
    | Except.ok _ => checkInsList facts bbIdx rest
    | Except.error e => Except.error e

/-- The `while (cur_bb)` loop of the checker. -/
def checkBBs (facts : MVMSpeshOperand → MVMSpeshFacts) :
    List MVMSpeshBB → Except DUCheckError Unit
  | [] => Except.ok ()
  | bb :: rest =>
    match checkInsList facts bb.idx bb.ins with
    | Except.ok _ => checkBBs facts rest
    | Except.error e => Except.error e

/-- `MVM_spesh_usages_check`: traverse every block, instruction and
operand slot; `MVM_oops` becomes `Except.error`. -/
def MVM_spesh_usages_check (g : MVMSpeshGraph) : Except DUCheckError Unit :=
  checkBBs g.facts g.bbs

/-- The condition the checker enforces on one operand slot: a
read-classified slot's value must have a chain entry equal to the current
instruction, and a slot that is not read-classified but write-classified
must have the current instruction recorded as writer. -/
def operandOk (facts : MVMSpeshOperand → MVMSpeshFacts) (ins : MVMSpeshIns)
    (isphi : Bool) (i flag : Nat) (o : MVMSpeshOperand) : Prop :=
  (isReadSlot isphi i flag = true → ins ∈ (facts o).usage.users)
  ∧ (isReadSlot isphi i flag = false → isWriteSlot isphi i flag = true →
      (facts o).writer = some ins)

/-- All slots of all instructions of all blocks satisfy `operandOk`. -/
def duChainsOk (g : MVMSpeshGraph) : Prop :=
  ∀ bb ∈ g.bbs, ∀ ins ∈ bb.ins, ∀ k flag o,
    ins.info.operands.get? k = some flag → ins.operands.get? k = some o →
    operandOk g.facts ins (ins.info.opcode == MVM_SSA_PHI) k flag o

/-- Every read operand occurrence has at least one matching chain entry
in the referenced value's usage chain. -/
def readsCovered (g : MVMSpeshGraph) : Prop :=
  ∀ bb ∈ g.bbs, ∀ ins ∈ bb.ins, ∀ k flag o,
    ins.info.operands.get? k = some flag → ins.operands.get? k = some o →
    isReadSlot (ins.info.opcode == MVM_SSA_PHI) k flag = true →
    ins ∈ (g.facts o).usage.users

/-- Number of read-classified operand slots, from slot `i` on, that
reference the value `v`. -/
def readOccFrom (isphi : Bool) (v : MVMSpeshOperand) :
    Nat → List Nat → List MVMSpeshOperand → Nat
  | _, [], _ => 0
  | _, _ :: _, [] => 0
  | i, flag :: fs, o :: os =>
    (if isReadSlot isphi i flag = true ∧ o = v then 1 else 0)
      + readOccFrom isphi v (i + 1) fs os

/-- Number of read operand occurrences of value `v` in one instruction. -/
def insReadOcc (ins : MVMSpeshIns) (v : MVMSpeshOperand) : Nat :=
  readOccFrom (ins.info.opcode == MVM_SSA_PHI) v 0 ins.info.operands ins.operands

/-- Read occurrences of `v` contributed by the instruction `I` within an
instruction stream (instruction identity is whole-structure equality). -/
def insListReadOcc (I : MVMSpeshIns) (v : MVMSpeshOperand) :
    List MVMSpeshIns → Nat
  | [] => 0
  | ins :: rest =>
    (if ins = I then insReadOcc ins v else 0) + insListReadOcc I v rest

/-- Read occurrences of `v` contributed by `I` across a block list. -/
def bbListReadOcc (I : MVMSpeshIns) (v : MVMSpeshOperand) :
    List MVMSpeshBB → Nat
  | [] => 0
  | bb :: rest => insListReadOcc I v bb.ins + bbListReadOcc I v rest

/-- Read occurrences of `v` contributed by the instruction `I` in the
whole graph. -/
def graphReadOcc (g : MVMSpeshGraph) (I : MVMSpeshIns) (v : MVMSpeshOperand) : Nat :=
  bbListReadOcc I v g.bbs

/-- Statement of invariant I2 following the spec's words: "for every read
operand occurrence in the instruction stream there is exactly one
matching UsageChainEntry in the referenced value's chain, and vice versa
— no dangling entries, no missing entries". Entries and occurrences match
on the consuming instruction, so the bijection says: for every value `v`
and every instruction `I`, the number of chain entries of `v` storing `I`
equals the number of read operand occurrences of `v` in `I` as it sits in
the graph (zero for instructions outside the graph). -/
def spec_I2 (g : MVMSpeshGraph) : Prop :=
  ∀ (v : MVMSpeshOperand) (I : MVMSpeshIns),
    (g.facts v).usage.users.count I = graphReadOcc g I v

/-- One call into the subsystem's mutating or query interface, for
stating flag monotonicity across operation sequences. Queries
(`is_used`, `is_used_by_deopt`, `is_used_by_handler`, `used_once`,
`count`) are pure functions of the facts entry and leave it unchanged,
so one constructor covers them all. -/
inductive UsageOp where
  | add (user : MVMSpeshIns)
  | delete (user : MVMSpeshIns)
  | markDeopt
  | markHandler
  | query
deriving DecidableEq, Repr

/-- Effect of one operation on a facts entry; `delete` aborts through
`MVM_oops` exactly as `MVM_spesh_usages_delete` does. -/
def applyOp (facts : MVMSpeshFacts) : UsageOp → Except String MVMSpeshFacts
  | UsageOp.add u => Except.ok (MVM_spesh_usages_add facts u)
  | UsageOp.delete u => MVM_spesh_usages_delete facts u
  | UsageOp.markDeopt => Except.ok (MVM_spesh_usages_add_for_deopt facts)
  | UsageOp.markHandler => Except.ok (MVM_spesh_usages_add_for_handler facts)
  | UsageOp.query => Except.ok facts

/-- Effect of a sequence of operations, stopping at the first abort. -/
def applyOps (facts : MVMSpeshFacts) : List UsageOp → Except String MVMSpeshFacts
  | [] => Except.ok facts
  | op :: rest =>
    match applyOp facts op with
    | Except.ok f' => applyOps f' rest
    | Except.error e => Except.error e

/-- Concrete facts entry with empty chain and clear flags, used in closed
instances of the theorems. -/
def emptyFactsEntry : MVMSpeshFacts := ⟨⟨[], false, false⟩, none⟩

/-- Concrete instruction used in closed instances of the chain theorems. -/
def insA : MVMSpeshIns := ⟨1, ⟨"add_i", 10, []⟩, []⟩

/-- Second concrete instruction, distinct from `insA`. -/
def insB : MVMSpeshIns := ⟨2, ⟨"sp_guard", 11, []⟩, []⟩

/-- Concrete SSA value identity 0(0). -/
def v0 : MVMSpeshOperand := ⟨0, 0⟩

/-- Concrete non-PHI instruction with a single read-classified slot
referencing `v0`. -/
def ins0 : MVMSpeshIns := ⟨3, ⟨"set", 0, [MVM_operand_read_reg]⟩, [v0]⟩

/-- Facts entry for `v0` holding two chain entries for `ins0` although
the graph below reads `v0` in only one slot of `ins0`. -/
def factsDup : MVMSpeshFacts := ⟨⟨[ins0, ins0], false, false⟩, none⟩

/-- Graph with one block containing only `ins0`, whose facts table gives
`v0` the duplicated chain `factsDup`: the checker accepts it although
invariant I2 fails. -/
def gDup : MVMSpeshGraph :=
  ⟨[⟨0, [ins0]⟩], fun o => if o = v0 then factsDup else emptyFactsEntry⟩

/-- Graph with one block containing only `ins0` and an empty facts table:
the read of `v0` has no chain entry, so the checker reports it. -/
def gBad : MVMSpeshGraph := ⟨[⟨7, [ins0]⟩], fun _ => emptyFactsEntry⟩

/-- Concrete facts entry `facts9a`: empty chain, clear flags. -/
def facts9a : MVMSpeshFacts := ⟨⟨[], false, false⟩, none⟩

/-- Concrete facts entry `facts9b`: empty chain, `deopt_required` set, a
different value identity than `facts9a`. -/
def facts9b : MVMSpeshFacts := ⟨⟨[], true, false⟩, some insB⟩

theorem setUsers_self (f : MVMSpeshFacts) : setUsers f f.usage.users = f := rfl

theorem deleteLoop_not_mem (u : MVMSpeshIns) :
    ∀ l : List MVMSpeshIns, u ∉ l → deleteLoop u l = (l, true)
  | [], _ => rfl
  | c :: rest, h => by
    have hc : ¬(c = u) := fun hcu => h (by simp [hcu])
    have hr : u ∉ rest := fun hm => h (List.mem_cons_of_mem c hm)
    simp [deleteLoop, hc, deleteLoop_not_mem u rest hr]

theorem deleteLoop_found (u : MVMSpeshIns) :
    ∀ l₁ l₂ : List MVMSpeshIns, u ∉ l₁ →
      deleteLoop u (l₁ ++ u :: l₂) = (l₁ ++ l₂, false)
  | [], l₂, _ => by simp [deleteLoop]
  | c :: t, l₂, h => by
    have hc : ¬(c = u) := fun hcu => h (by simp [hcu])
    have ht : u ∉ t := fun hm => h (List.mem_cons_of_mem c hm)
    simp [deleteLoop, hc, deleteLoop_found u t l₂ ht]

theorem deleteLoop_mem_spec (u : MVMSpeshIns) :
    ∀ l : List MVMSpeshIns, u ∈ l →
      (deleteLoop u l).2 = false
      ∧ (deleteLoop u l).1.count u = l.count u - 1
      ∧ (deleteLoop u l).1.filter (fun c => !decide (c = u))
          = l.filter (fun c => !decide (c = u))
  | [], h => absurd h (List.not_mem_nil u)
  | c :: rest, h => by
    by_cases hc : c = u
    · subst hc
      simp [deleteLoop, List.count_cons, List.filter_cons]
    · have hur : u ∈ rest := by
        rcases List.mem_cons.mp h with h1 | h1
        · exact absurd h1.symm hc
        · exact h1
      have ih := deleteLoop_mem_spec u rest hur
      have hcount : 0 < rest.count u := List.count_pos_iff.mpr hur
      simp only [deleteLoop, if_neg hc]
      refine ⟨ih.1, ?_, ?_⟩
      · have hne : ¬(u = c) := fun h' => hc h'.symm
        simp [List.count_cons, hne, ih.2.1]
      · simp [List.filter_cons, hc, ih.2.2]

theorem deleteTimes_spec (u : MVMSpeshIns) :
    ∀ (n : Nat) (f : MVMSpeshFacts), f.usage.users.count u = n →
      ∃ f', deleteTimes f u n = Except.ok f'
        ∧ f'.usage.users = f.usage.users.filter (fun c => !decide (c = u))
  | 0, f, h => by
    have hnm : u ∉ f.usage.users := by
      intro hm
      have := List.count_pos_iff.mpr hm
      omega
    refine ⟨f, rfl, ?_⟩
    rw [List.filter_eq_self.mpr]
    intro a ha
    have : ¬(a = u) := fun h' => hnm (h' ▸ ha)
    simp [this]
  | n + 1, f, h => by
    have hm : u ∈ f.usage.users := by
      by_contra hnm
      rw [List.count_eq_zero.mpr hnm] at h
      omega
    have hml := deleteLoop_mem_spec u f.usage.users hm
    have hdel : MVM_spesh_usages_delete f u
        = Except.ok (setUsers f (deleteLoop u f.usage.users).1) := by
      simp [MVM_spesh_usages_delete, hml.1]
    have hcount : (setUsers f (deleteLoop u f.usage.users).1).usage.users.count u = n := by
      simp only [setUsers]
      rw [hml.2.1, h]
      omega
    obtain ⟨f', hf', hfilter⟩ := deleteTimes_spec u n (setUsers f (deleteLoop u f.usage.users).1) hcount
    refine ⟨f', ?_, ?_⟩
    · simp [deleteTimes, hdel, hf']
    · rw [hfilter]
      simpa [setUsers] using hml.2.2

/-- C1: `MVM_spesh_usages_is_used` is true exactly when the usage chain is
non-empty or `deopt_required` or `handler_required` is set; on a facts
entry with an empty chain and both flags false it is false. -/
theorem usages_is_used_spec (f : MVMSpeshFacts) :
    (MVM_spesh_usages_is_used f = true ↔
      (f.usage.users ≠ [] ∨ f.usage.deopt_required = true ∨ f.usage.handler_required = true))
    ∧ (f.usage.users = [] ∧ f.usage.deopt_required = false ∧ f.usage.handler_required = false →
        MVM_spesh_usages_is_used f = false) := by
  constructor
  · simp [MVM_spesh_usages_is_used, List.isEmpty_iff]
    tauto
  · rintro ⟨h1, h2, h3⟩
    simp [MVM_spesh_usages_is_used, h1, h2, h3]

/-- Closed instance of `usages_is_used_spec`: on the freshly constructed
facts entry (empty chain, both flags false) `is_used` is false. -/
theorem usages_is_used_spec_witness :
    MVM_spesh_usages_is_used ⟨⟨[], false, false⟩, none⟩ = false :=
  (usages_is_used_spec ⟨⟨[], false, false⟩, none⟩).2 ⟨rfl, rfl, rfl⟩

/-- C2: `MVM_spesh_usages_used_once` is true exactly when both flags are
clear and the chain has exactly one entry; after
`MVM_spesh_usages_add_for_deopt` it is false regardless of the chain
(in particular when the usage count is 1). -/
theorem usages_used_once_spec (f : MVMSpeshFacts) :
    (MVM_spesh_usages_used_once f = true ↔
      (f.usage.deopt_required = false ∧ f.usage.handler_required = false ∧
        f.usage.users.length = 1))
    ∧ MVM_spesh_usages_used_once (MVM_spesh_usages_add_for_deopt f) = false := by
  constructor
  · cases h : f.usage.users with
    | nil => simp [MVM_spesh_usages_used_once, h]
    | cons a t =>
      cases t with
      | nil => simp [MVM_spesh_usages_used_once, h]
      | cons b t' => simp [MVM_spesh_usages_used_once, h]
  · simp [MVM_spesh_usages_used_once, MVM_spesh_usages_add_for_deopt]

/-- C3: `MVM_spesh_usages_delete` unlinks exactly the first chain entry
matching the instruction, scanning from the head, leaving all other
entries intact; it raises the `MVM_oops` diagnostic exactly when no entry
matches; and when the chain holds `n` matching entries, `n` calls remove
them all (leaving the non-matching entries untouched) and an `(n+1)`-th
call fails fatally. -/
theorem usages_delete_spec (f : MVMSpeshFacts) (u : MVMSpeshIns) :
    (∀ l₁ l₂, f.usage.users = l₁ ++ u :: l₂ → u ∉ l₁ →
      MVM_spesh_usages_delete f u = Except.ok (setUsers f (l₁ ++ l₂)))
    ∧ (MVM_spesh_usages_delete f u = Except.error (deleteOopsMsg u) ↔
        u ∉ f.usage.users)
    ∧ (∀ n, f.usage.users.count u = n →
        ∃ f', deleteTimes f u n = Except.ok f'
          ∧ f'.usage.users = f.usage.users.filter (fun c => !decide (c = u))
          ∧ MVM_spesh_usages_delete f' u = Except.error (deleteOopsMsg u)) := by
  have herr : ∀ g : MVMSpeshFacts, u ∉ g.usage.users →
      MVM_spesh_usages_delete g u = Except.error (deleteOopsMsg u) := by
    intro g hg
    simp [MVM_spesh_usages_delete, deleteLoop_not_mem u _ hg]
  refine ⟨?_, ?_, ?_⟩
  · intro l₁ l₂ hdec hnm
    simp [MVM_spesh_usages_delete, hdec, deleteLoop_found u l₁ l₂ hnm]
  · constructor
    · intro herr' hm
      have hml := deleteLoop_mem_spec u f.usage.users hm
      simp [MVM_spesh_usages_delete, hml.1] at herr'
    · exact herr f
  · intro n hn
    obtain ⟨f', hrun, hfilter⟩ := deleteTimes_spec u n f hn
    refine ⟨f', hrun, hfilter, herr f' ?_⟩
    rw [hfilter]
    intro hm
    simp at hm

/-- Closed instance of `usages_delete_spec`: on the chain `[insB, insA]`,
deleting `insA` removes exactly the matching entry and keeps `insB`; with
one matching entry, one call clears it and a second call fails fatally. -/
theorem usages_delete_spec_witness :
    MVM_spesh_usages_delete ⟨⟨[insB, insA], false, false⟩, none⟩ insA
        = Except.ok (setUsers ⟨⟨[insB, insA], false, false⟩, none⟩ [insB])
    ∧ ∃ f', deleteTimes ⟨⟨[insB, insA], false, false⟩, none⟩ insA 1 = Except.ok f'
        ∧ f'.usage.users
            = [insB, insA].filter (fun c => !decide (c = insA))
        ∧ MVM_spesh_usages_delete f' insA = Except.error (deleteOopsMsg insA) :=
  ⟨(usages_delete_spec ⟨⟨[insB, insA], false, false⟩, none⟩ insA).1 [insB] []
      rfl (by decide),
   (usages_delete_spec ⟨⟨[insB, insA], false, false⟩, none⟩ insA).2.2 1 (by decide)⟩

/-- C6: removing a usage straight after registering it restores the facts
entry exactly (same chain entries, flags and writer); and on a facts
entry whose chain is empty with both flags clear, `is_used` is false. -/
theorem usages_add_delete_roundtrip (f : MVMSpeshFacts) (u : MVMSpeshIns) :
    MVM_spesh_usages_delete (MVM_spesh_usages_add f u) u = Except.ok f
    ∧ (f.usage.users = [] ∧ f.usage.deopt_required = false ∧
        f.usage.handler_required = false →
        MVM_spesh_usages_is_used f = false) := by
  constructor
  · simp [MVM_spesh_usages_delete, MVM_spesh_usages_add, deleteLoop, setUsers]
  · rintro ⟨h1, h2, h3⟩
    simp [MVM_spesh_usages_is_used, h1, h2, h3]

/-- Closed instance of `usages_add_delete_roundtrip` at the empty facts
entry and `insA`. -/
theorem usages_add_delete_roundtrip_witness :
    MVM_spesh_usages_delete (MVM_spesh_usages_add emptyFactsEntry insA) insA
        = Except.ok emptyFactsEntry
    ∧ MVM_spesh_usages_is_used emptyFactsEntry = false :=
  ⟨(usages_add_delete_roundtrip emptyFactsEntry insA).1,
   (usages_add_delete_roundtrip emptyFactsEntry insA).2 ⟨rfl, rfl, rfl⟩⟩

theorem countLoop_eq_length : ∀ l : List MVMSpeshIns, countLoop l = l.length
  | [] => rfl
  | _ :: rest => by simp [countLoop, countLoop_eq_length rest]

/-- C7: `MVM_spesh_usages_add` performs no deduplication — each call
prepends exactly one new entry and raises `MVM_spesh_usages_count` by
exactly one, even for an instruction already present; the count is the
chain length with the deopt/handler flags excluded; and two
registrations on a fresh entry give count 2 whether or not the two
instructions coincide. -/
theorem usages_add_count_spec (f : MVMSpeshFacts) (u u₁ u₂ : MVMSpeshIns) :
    (MVM_spesh_usages_add f u).usage.users = u :: f.usage.users
    ∧ MVM_spesh_usages_count (MVM_spesh_usages_add f u)
        = MVM_spesh_usages_count f + 1
    ∧ MVM_spesh_usages_count f = f.usage.users.length
    ∧ (f.usage.users = [] →
        MVM_spesh_usages_count
          (MVM_spesh_usages_add (MVM_spesh_usages_add f u₁) u₂) = 2)
    ∧ MVM_spesh_usages_count (MVM_spesh_usages_add_for_deopt f)
        = MVM_spesh_usages_count f
    ∧ MVM_spesh_usages_count (MVM_spesh_usages_add_for_handler f)
        = MVM_spesh_usages_count f := by
  refine ⟨rfl, ?_, countLoop_eq_length _, ?_, rfl, rfl⟩
  · simp [MVM_spesh_usages_count, MVM_spesh_usages_add, countLoop]
  · intro h
    simp [MVM_spesh_usages_count, MVM_spesh_usages_add, h, countLoop]

/-- Closed instance of `usages_add_count_spec`: registering the same
instruction twice on a fresh entry yields count 2. -/
theorem usages_add_count_spec_witness :
    MVM_spesh_usages_count
      (MVM_spesh_usages_add (MVM_spesh_usages_add emptyFactsEntry insA) insA) = 2 :=
  (usages_add_count_spec emptyFactsEntry insA insA insA).2.2.2.1 rfl

/-- C10: when `MVM_spesh_usages_delete` finds no matching entry, it
raises the fatal diagnostic and the facts entry at the moment `MVM_oops`
fires is exactly the entry passed in — no chain entry was removed, added
or relinked, and the flags and writer are untouched. -/
theorem usages_delete_failure_atomic (f : MVMSpeshFacts) (u : MVMSpeshIns)
    (h : u ∉ f.usage.users) :
    MVM_spesh_usages_delete f u = Except.error (deleteOopsMsg u)
    ∧ deleteAbortState f u = f := by
  have hd := deleteLoop_not_mem u f.usage.users h
  constructor
  · simp [MVM_spesh_usages_delete, hd]
  · rw [deleteAbortState, hd]
    exact setUsers_self f

/-- Closed instance of `usages_delete_failure_atomic` at a facts entry
whose chain holds only `insB`, deleting `insA`. -/
theorem usages_delete_failure_atomic_witness :
    MVM_spesh_usages_delete ⟨⟨[insB], true, false⟩, some insB⟩ insA
        = Except.error (deleteOopsMsg insA)
    ∧ deleteAbortState ⟨⟨[insB], true, false⟩, some insB⟩ insA
        = ⟨⟨[insB], true, false⟩, some insB⟩ :=
  usages_delete_failure_atomic ⟨⟨[insB], true, false⟩, some insB⟩ insA (by decide)

/-- C9 counterexample: the `MVM_oops` diagnostic of
`MVM_spesh_usages_delete` does not include the value's identity — two
different facts entries (different flags, different writer) produce the
very same diagnostic, which interpolates only `by->info->name`. -/
theorem delete_diag_ignores_value :
    facts9a ≠ facts9b
    ∧ MVM_spesh_usages_delete facts9a insA = Except.error (deleteOopsMsg insA)
    ∧ MVM_spesh_usages_delete facts9b insA = Except.error (deleteOopsMsg insA) :=
  ⟨by decide, rfl, rfl⟩

/-- C9 amended: the fatal diagnostic of a failed `MVM_spesh_usages_delete`
names the offending instruction (through its op name), but carries no
value identity and no graph dump — the message is a function of the
instruction alone. -/
theorem delete_diag_names_instruction_only (f : MVMSpeshFacts) (u : MVMSpeshIns)
    (h : u ∉ f.usage.users) :
    MVM_spesh_usages_delete f u =
      Except.error ("Spesh: instruction " ++ u.info.name
        ++ " missing from define-use chain") := by
  simp [MVM_spesh_usages_delete, deleteLoop_not_mem u _ h, deleteOopsMsg]

/-- Closed instance of `delete_diag_names_instruction_only` at the empty
facts entry and `insA`. -/
theorem delete_diag_names_instruction_only_witness :
    MVM_spesh_usages_delete emptyFactsEntry insA =
      Except.error ("Spesh: instruction " ++ insA.info.name
        ++ " missing from define-use chain") :=
  delete_diag_names_instruction_only emptyFactsEntry insA (by decide)

theorem delete_preserves_flags (f f' : MVMSpeshFacts) (u : MVMSpeshIns)
    (h : MVM_spesh_usages_delete f u = Except.ok f') :
    f'.usage.deopt_required = f.usage.deopt_required
    ∧ f'.usage.handler_required = f.usage.handler_required := by
  unfold MVM_spesh_usages_delete at h
  by_cases hb : (deleteLoop u f.usage.users).2 = true
  · simp [hb] at h
  · simp [hb] at h
    rw [← h]
    exact ⟨rfl, rfl⟩

theorem applyOps_flags_monotone :
    ∀ (ops : List UsageOp) (f f' : MVMSpeshFacts),
      applyOps f ops = Except.ok f' →
      (f.usage.deopt_required = true → f'.usage.deopt_required = true)
      ∧ (f.usage.handler_required = true → f'.usage.handler_required = true)
  | [], f, f', h => by
    simp [applyOps] at h
    rw [← h]
    exact ⟨id, id⟩
  | op :: rest, f, f', h => by
    cases op with
    | add u =>
      simp only [applyOps, applyOp] at h
      have ih := applyOps_flags_monotone rest _ f' h
      exact ⟨fun hd => ih.1 hd, fun hh => ih.2 hh⟩
    | delete u =>
      simp only [applyOps, applyOp] at h
      cases hdel : MVM_spesh_usages_delete f u with
      | ok f₁ =>
        rw [hdel] at h
        have hflags := delete_preserves_flags f f₁ u hdel
        have ih := applyOps_flags_monotone rest f₁ f' h
        exact ⟨fun hd => ih.1 (hflags.1.trans hd),
               fun hh => ih.2 (hflags.2.trans hh)⟩
      | error e => rw [hdel] at h; exact absurd h (by simp)
    | markDeopt =>
      simp only [applyOps, applyOp] at h
      have ih := applyOps_flags_monotone rest _ f' h
      exact ⟨fun _ => ih.1 rfl, fun hh => ih.2 hh⟩
    | markHandler =>
      simp only [applyOps, applyOp] at h
      have ih := applyOps_flags_monotone rest _ f' h
      exact ⟨fun hd => ih.1 hd, fun _ => ih.2 rfl⟩
    | query =>
      simp only [applyOps, applyOp] at h
      exact applyOps_flags_monotone rest f f' h

/-- C8: `MVM_spesh_usages_add_for_deopt` and
`MVM_spesh_usages_add_for_handler` each set their flag to true with no
other effect on the entry, and are idempotent; and across any sequence of
register/unregister/mark/query operations that runs without `MVM_oops`,
neither flag ever transitions from true to false. -/
theorem usages_flags_monotone (f : MVMSpeshFacts) :
    (MVM_spesh_usages_add_for_deopt f).usage.deopt_required = true
    ∧ (MVM_spesh_usages_add_for_deopt f).usage.users = f.usage.users
    ∧ (MVM_spesh_usages_add_for_deopt f).usage.handler_required
        = f.usage.handler_required
    ∧ (MVM_spesh_usages_add_for_deopt f).writer = f.writer
    ∧ MVM_spesh_usages_add_for_deopt (MVM_spesh_usages_add_for_deopt f)
        = MVM_spesh_usages_add_for_deopt f
    ∧ (f.usage.deopt_required = true → MVM_spesh_usages_add_for_deopt f = f)
    ∧ (MVM_spesh_usages_add_for_handler f).usage.handler_required = true
    ∧ (MVM_spesh_usages_add_for_handler f).usage.users = f.usage.users
    ∧ (MVM_spesh_usages_add_for_handler f).usage.deopt_required
        = f.usage.deopt_required
    ∧ (MVM_spesh_usages_add_for_handler f).writer = f.writer
    ∧ MVM_spesh_usages_add_for_handler (MVM_spesh_usages_add_for_handler f)
        = MVM_spesh_usages_add_for_handler f
    ∧ (f.usage.handler_required = true → MVM_spesh_usages_add_for_handler f = f)
    ∧ ∀ (ops : List UsageOp) (f' : MVMSpeshFacts),
        applyOps f ops = Except.ok f' →
        (f.usage.deopt_required = true → f'.usage.deopt_required = true)
        ∧ (f.usage.handler_required = true → f'.usage.handler_required = true) := by
  obtain ⟨⟨us, d, hl⟩, w⟩ := f
  refine ⟨rfl, rfl, rfl, rfl, rfl, ?_, rfl, rfl, rfl, rfl, rfl, ?_,
    fun ops f' h => applyOps_flags_monotone ops _ f' h⟩
  · intro hd
    subst hd
    rfl
  · intro hh
    subst hh
    rfl

/-- Closed instance of `usages_flags_monotone`: starting from an entry
with both flags set, running a register followed by a deopt mark keeps
both flags set. -/
theorem usages_flags_monotone_witness :
    (⟨⟨[insA], true, true⟩, none⟩ : MVMSpeshFacts).usage.deopt_required = true
    ∧ (⟨⟨[insA], true, true⟩, none⟩ : MVMSpeshFacts).usage.handler_required = true :=
  have h := (usages_flags_monotone ⟨⟨[], true, true⟩, none⟩).2.2.2.2.2.2.2.2.2.2.2.2
    [UsageOp.add insA, UsageOp.markDeopt] ⟨⟨[insA], true, true⟩, none⟩ rfl
  ⟨h.1 rfl, h.2 rfl⟩

theorem checkOperand_ok_iff (facts : MVMSpeshOperand → MVMSpeshFacts) (bbIdx : Nat)
    (ins : MVMSpeshIns) (isphi : Bool) (i flag : Nat) (o : MVMSpeshOperand) :
    checkOperand facts bbIdx ins isphi i flag o = Except.ok ()
      ↔ operandOk facts ins isphi i flag o := by
  unfold checkOperand operandOk
  by_cases hr : isReadSlot isphi i flag = true
  · by_cases hm : ins ∈ (facts o).usage.users
    · simp [hr, hm]
    · simp [hr, hm]
  · by_cases hw : isWriteSlot isphi i flag = true
    · by_cases hwr : (facts o).writer = some ins
      · simp [hr, hw, hwr]
      · simp [hr, hw, hwr]
    · simp [hr, hw]

theorem checkOperand_error_spec (facts : MVMSpeshOperand → MVMSpeshFacts) (bbIdx : Nat)
    (ins : MVMSpeshIns) (isphi : Bool) (i flag : Nat) (o : MVMSpeshOperand)
    (e : DUCheckError)
    (h : checkOperand facts bbIdx ins isphi i flag o = Except.error e) :
    ¬ operandOk facts ins isphi i flag o
    ∧ e.opName = (if isphi then "PHI" else ins.info.name)
    ∧ e.orig = o.orig ∧ e.regI = o.i ∧ e.bbIdx = bbIdx := by
  unfold checkOperand at h
  by_cases hr : isReadSlot isphi i flag = true
  · by_cases hm : ins ∈ (facts o).usage.users
    · simp [hr, hm] at h
    · simp only [if_pos hr, if_neg hm] at h
      injection h with he
      subst he
      exact ⟨fun hok => hm (hok.1 hr), rfl, rfl, rfl, rfl⟩
  · by_cases hw : isWriteSlot isphi i flag = true
    · by_cases hwr : (facts o).writer = some ins
      · simp [hr, hw, hwr] at h
      · simp only [if_neg hr, if_pos hw, if_neg hwr] at h
        injection h with he
        subst he
        refine ⟨fun hok => hwr (hok.2 ?_ hw), rfl, rfl, rfl, rfl⟩
        exact Bool.not_eq_true _ |>.mp hr
    · simp [hr, hw] at h

theorem checkOperandsFrom_ok_iff (facts : MVMSpeshOperand → MVMSpeshFacts)
    (bbIdx : Nat) (ins : MVMSpeshIns) (isphi : Bool) :
    ∀ (fs : List Nat) (os : List MVMSpeshOperand) (i : Nat),
      (checkOperandsFrom facts bbIdx ins isphi i fs os = Except.ok ()
        ↔ ∀ k flag o, fs.get? k = some flag → os.get? k = some o →
            operandOk facts ins isphi (i + k) flag o)
  | [], os, i => by simp [checkOperandsFrom]
  | flag :: fs, [], i => by simp [checkOperandsFrom]
  | flag :: fs, o :: os, i => by
    have ih := checkOperandsFrom_ok_iff facts bbIdx ins isphi fs os (i + 1)
    cases hc : checkOperand facts bbIdx ins isphi i flag o with
    | error e =>
      simp only [checkOperandsFrom, hc]
      constructor
      · intro h
        exact absurd h (fun h' => Except.noConfusion h')
      · intro h
        exfalso
        have h0 := h 0 flag o rfl rfl
        rw [Nat.add_zero] at h0
        have hok := (checkOperand_ok_iff facts bbIdx ins isphi i flag o).mpr h0
        rw [hok] at hc
        exact Except.noConfusion hc
    | ok u =>
      cases u
      simp only [checkOperandsFrom, hc]
      constructor
      · intro h k flag' o' hf ho
        cases k with
        | zero =>
          simp only [List.get?_cons_zero, Option.some.injEq] at hf ho
          subst hf
          subst ho
          rw [Nat.add_zero]
          exact (checkOperand_ok_iff facts bbIdx ins isphi i flag o).mp hc
        | succ k =>
          simp only [List.get?_cons_succ] at hf ho
          have h2 := ih.mp h k flag' o' hf ho
          have heq : i + (k + 1) = (i + 1) + k := by omega
          rw [heq]
          exact h2
      · intro h
        apply ih.mpr
        intro k flag' o' hf ho
        have h2 := h (k + 1) flag' o' (by simpa using hf) (by simpa using ho)
        have heq : i + (k + 1) = (i + 1) + k := by omega
        rw [heq] at h2
        exact h2

theorem checkOperandsFrom_error_spec (facts : MVMSpeshOperand → MVMSpeshFacts)
    (bbIdx : Nat) (ins : MVMSpeshIns) (isphi : Bool) :
    ∀ (fs : List Nat) (os : List MVMSpeshOperand) (i : Nat) (e : DUCheckError),
      checkOperandsFrom facts bbIdx ins isphi i fs os = Except.error e →
      ∃ k flag o, fs.get? k = some flag ∧ os.get? k = some o ∧
        checkOperand facts bbIdx ins isphi (i + k) flag o = Except.error e
  | [], os, i, e => by simp [checkOperandsFrom]
  | flag :: fs, [], i, e => by simp [checkOperandsFrom]
  | flag :: fs, o :: os, i, e => by
    cases hc : checkOperand facts bbIdx ins isphi i flag o with
    | error e' =>
      simp only [checkOperandsFrom, hc]
      intro h
      injection h with he
      subst he
      refine ⟨0, flag, o, rfl, rfl, ?_⟩
      rw [Nat.add_zero]
      exact hc
    | ok u =>
      cases u
      simp only [checkOperandsFrom, hc]
      intro h
      obtain ⟨k, flag', o', hf, ho, hcheck⟩ :=
        checkOperandsFrom_error_spec facts bbIdx ins isphi fs os (i + 1) e h
      refine ⟨k + 1, flag', o', by simpa using hf, by simpa using ho, ?_⟩
      have heq : i + (k + 1) = (i + 1) + k := by omega
      rw [heq]
      exact hcheck

theorem checkInsList_ok_iff (facts : MVMSpeshOperand → MVMSpeshFacts) (bbIdx : Nat) :
    ∀ l : List MVMSpeshIns,
      (checkInsList facts bbIdx l = Except.ok ()
        ↔ ∀ ins ∈ l, checkIns facts bbIdx ins = Except.ok ())
  | [] => by simp [checkInsList]
  | ins :: rest => by
    cases hc : checkIns facts bbIdx ins with
    | error e =>
      simp only [checkInsList, hc]
      constructor
      · intro h
        exact absurd h (fun h' => Except.noConfusion h')
      · intro h
        have h1 := h ins (by simp)
        rw [h1] at hc
        exact absurd hc (fun h' => Except.noConfusion h')
    | ok u =>
      cases u
      simp only [checkInsList, hc]
      rw [checkInsList_ok_iff facts bbIdx rest]
      constructor
      · intro h ins' hmem
        rcases List.mem_cons.mp hmem with h1 | h1
        · rw [h1]
          exact hc
        · exact h ins' h1
      · intro h ins' h1
        exact h ins' (List.mem_cons_of_mem ins h1)

theorem checkInsList_error_spec (facts : MVMSpeshOperand → MVMSpeshFacts) (bbIdx : Nat) :
    ∀ (l : List MVMSpeshIns) (e : DUCheckError),
      checkInsList facts bbIdx l = Except.error e →
      ∃ ins ∈ l, checkIns facts bbIdx ins = Except.error e
  | [], e => by simp [checkInsList]
  | ins :: rest, e => by
    cases hc : checkIns facts bbIdx ins with
    | error e' =>
      simp only [checkInsList, hc]
      intro h
      injection h with he
      subst he
      exact ⟨ins, by simp, hc⟩
    | ok u =>
      cases u
      simp only [checkInsList, hc]
      intro h
      obtain ⟨ins', hmem, hcheck⟩ := checkInsList_error_spec facts bbIdx rest e h
      exact ⟨ins', List.mem_cons_of_mem ins hmem, hcheck⟩

theorem checkBBs_ok_iff (facts : MVMSpeshOperand → MVMSpeshFacts) :
    ∀ l : List MVMSpeshBB,
      (checkBBs facts l = Except.ok ()
        ↔ ∀ bb ∈ l, checkInsList facts bb.idx bb.ins = Except.ok ())
  | [] => by simp [checkBBs]
  | bb :: rest => by
    cases hc : checkInsList facts bb.idx bb.ins with
    | error e =>
      simp only [checkBBs, hc]
      constructor
      · intro h
        exact absurd h (fun h' => Except.noConfusion h')
      · intro h
        have h1 := h bb (by simp)
        rw [h1] at hc
        exact absurd hc (fun h' => Except.noConfusion h')
    | ok u =>
      cases u
      simp only [checkBBs, hc]
      rw [checkBBs_ok_iff facts rest]
      constructor
      · intro h bb' hmem
        rcases List.mem_cons.mp hmem with h1 | h1
        · rw [h1]
          exact hc
        · exact h bb' h1
      · intro h bb' h1
        exact h bb' (List.mem_cons_of_mem bb h1)

theorem checkBBs_error_spec (facts : MVMSpeshOperand → MVMSpeshFacts) :
    ∀ (l : List MVMSpeshBB) (e : DUCheckError),
      checkBBs facts l = Except.error e →
      ∃ bb ∈ l, checkInsList facts bb.idx bb.ins = Except.error e
  | [], e => by simp [checkBBs]
  | bb :: rest, e => by
    cases hc : checkInsList facts bb.idx bb.ins with
    | error e' =>
      simp only [checkBBs, hc]
      intro h
      injection h with he
      subst he
      exact ⟨bb, by simp, hc⟩
    | ok u =>
      cases u
      simp only [checkBBs, hc]
      intro h
      obtain ⟨bb', hmem, hcheck⟩ := checkBBs_error_spec facts rest e h
      exact ⟨bb', List.mem_cons_of_mem bb hmem, hcheck⟩

theorem check_ok_iff (g : MVMSpeshGraph) :
    MVM_spesh_usages_check g = Except.ok () ↔ duChainsOk g := by
  unfold MVM_spesh_usages_check duChainsOk
  rw [checkBBs_ok_iff]
  constructor
  · intro h bb hbb ins hins k flag o hf ho
    have h1 := (checkInsList_ok_iff g.facts bb.idx bb.ins).mp (h bb hbb) ins hins
    rw [checkIns] at h1
    have h2 := (checkOperandsFrom_ok_iff g.facts bb.idx ins
      (ins.info.opcode == MVM_SSA_PHI) ins.info.operands ins.operands 0).mp h1
        k flag o hf ho
    rwa [Nat.zero_add] at h2
  · intro h bb hbb
    apply (checkInsList_ok_iff g.facts bb.idx bb.ins).mpr
    intro ins hins
    rw [checkIns]
    apply (checkOperandsFrom_ok_iff g.facts bb.idx ins
      (ins.info.opcode == MVM_SSA_PHI) ins.info.operands ins.operands 0).mpr
    intro k flag o hf ho
    rw [Nat.zero_add]
    exact h bb hbb ins hins k flag o hf ho

theorem check_error_spec (g : MVMSpeshGraph) (e : DUCheckError)
    (h : MVM_spesh_usages_check g = Except.error e) :
    ∃ bb ∈ g.bbs, ∃ ins ∈ bb.ins, ∃ k flag o,
      ins.info.operands.get? k = some flag ∧ ins.operands.get? k = some o ∧
      ¬ operandOk g.facts ins (ins.info.opcode == MVM_SSA_PHI) k flag o ∧
      e.opName = (if ins.info.opcode == MVM_SSA_PHI then "PHI" else ins.info.name) ∧
      e.orig = o.orig ∧ e.regI = o.i ∧ e.bbIdx = bb.idx := by
  obtain ⟨bb, hbb, h1⟩ := checkBBs_error_spec g.facts g.bbs e h
  obtain ⟨ins, hins, h2⟩ := checkInsList_error_spec g.facts bb.idx bb.ins e h1
  rw [checkIns] at h2
  obtain ⟨k, flag, o, hf, ho, h3⟩ := checkOperandsFrom_error_spec g.facts bb.idx ins
    (ins.info.opcode == MVM_SSA_PHI) ins.info.operands ins.operands 0 e h2
  rw [Nat.zero_add] at h3
  have h4 := checkOperand_error_spec g.facts bb.idx ins
    (ins.info.opcode == MVM_SSA_PHI) k flag o e h3
  exact ⟨bb, hbb, ins, hins, k, flag, o, hf, ho,
    h4.1, h4.2.1, h4.2.2.1, h4.2.2.2.1, h4.2.2.2.2⟩

/-- C5: `MVM_spesh_usages_check` completes without a diagnostic exactly
when, under its PHI-aware classification, every read-classified slot's
value has a chain entry equal to the current instruction and every
write-classified slot's `facts.writer` is the current instruction; and
any diagnostic it raises names the op (or `"PHI"`), the operand and the
block index of an actually violating slot. -/
theorem usages_check_spec (g : MVMSpeshGraph) :
    (MVM_spesh_usages_check g = Except.ok () ↔ duChainsOk g)
    ∧ (∀ e, MVM_spesh_usages_check g = Except.error e →
        ∃ bb ∈ g.bbs, ∃ ins ∈ bb.ins, ∃ k flag o,
          ins.info.operands.get? k = some flag ∧ ins.operands.get? k = some o ∧
          ¬ operandOk g.facts ins (ins.info.opcode == MVM_SSA_PHI) k flag o ∧
          e.opName = (if ins.info.opcode == MVM_SSA_PHI then "PHI" else ins.info.name) ∧
          e.orig = o.orig ∧ e.regI = o.i ∧ e.bbIdx = bb.idx) :=
  ⟨check_ok_iff g, fun e he => check_error_spec g e he⟩

/-- Closed instance of `usages_check_spec`: on `gBad` the checker raises
the reader-missing diagnostic for the read of `v0` by `ins0` in block 7,
and that diagnostic names an actually violating slot. -/
theorem usages_check_spec_witness :
    MVM_spesh_usages_check gBad
        = Except.error (DUCheckError.readerMissing "set" 0 0 7)
    ∧ ∃ bb ∈ gBad.bbs, ∃ ins ∈ bb.ins, ∃ k flag o,
        ins.info.operands.get? k = some flag ∧ ins.operands.get? k = some o ∧
        ¬ operandOk gBad.facts ins (ins.info.opcode == MVM_SSA_PHI) k flag o ∧
        (DUCheckError.readerMissing "set" 0 0 7).opName
          = (if ins.info.opcode == MVM_SSA_PHI then "PHI" else ins.info.name) ∧
        (DUCheckError.readerMissing "set" 0 0 7).orig = o.orig ∧
        (DUCheckError.readerMissing "set" 0 0 7).regI = o.i ∧
        (DUCheckError.readerMissing "set" 0 0 7).bbIdx = bb.idx :=
  ⟨rfl, (usages_check_spec gBad).2 (DUCheckError.readerMissing "set" 0 0 7) rfl⟩

/-- C4 counterexample: the checker is not an exhaustive verifier of
invariant I2 — it accepts the graph `gDup`, whose chain for `v0` holds
two entries for `ins0` although the instruction stream reads `v0` in only
one slot, so I2's "exactly one matching entry, and vice versa" fails. -/
theorem checker_accepts_without_I2 :
    MVM_spesh_usages_check gDup = Except.ok () ∧ ¬ spec_I2 gDup := by
  constructor
  · rfl
  · intro h
    exact absurd (h v0 ins0) (by decide)

/-- C4 amended: if the consistency checker completes without raising a
diagnostic, then every read operand occurrence in the instruction stream
has at least one matching UsageChainEntry in the referenced value's
chain; the checker does not verify the exactly-one direction nor the
absence of dangling or duplicate entries. -/
theorem checker_ok_reads_covered (g : MVMSpeshGraph)
    (h : MVM_spesh_usages_check g = Except.ok ()) : readsCovered g := by
  have hok := (check_ok_iff g).mp h
  intro bb hbb ins hins k flag o hf ho hread
  exact (hok bb hbb ins hins k flag o hf ho).1 hread

/-- Closed instance of `checker_ok_reads_covered` at the accepted graph
`gDup`. -/
theorem checker_ok_reads_covered_witness : readsCovered gDup :=
  checker_ok_reads_covered gDup rfl
